import Mathlib

/-!
Verification of the `go-mirror-transform` library (packages `mirrortransform` /
`filesmirror`): a shallow embedding of the path handling, the directory walk
(`scanDirectory`), the worker loop (`fileProcessor`), the lifecycle
coordinator's final `select`, the watch-mode event handler
(`handleWatchEvents` / `processWatchEvent`), the circular-reference guard
(`checkCircularReference`) and the constructor (`NewMirrorTransform`),
together with proofs of the specification's claims about them.

Modelling conventions:
* Paths are Unix paths (`filepath.Separator = '/'`).
* `doublestar.Match` is an external collaborator, consumed as a pure
  predicate `matcher : pattern → relPath → Bool`; runs with malformed
  patterns (which make `Match` return an error and abort the run) are out of
  scope of the claims proved against it.
* Runs are modelled at the point where cancellation has not fired unless a
  claim is explicitly about cancellation; the coordinator `select` is
  modelled separately with an explicit scheduler choice, matching Go's
  semantics that `select` picks uniformly among ready branches.
-/

/-- Concatenation of path components with the `'/'` separator, at the
character-list level.  `charJoin [c]` is `c`; `charJoin (c :: rest)` is
`c ++ '/' :: charJoin rest`. -/
def charJoin : List (List Char) → List Char
  | [] => []
  | [c] => c
  | c :: c' :: rest => c ++ '/' :: charJoin (c' :: rest)

/-- Joining string path components with `"/"`; the string-level counterpart
of `charJoin`, used to build relative path strings the way
`filepath.Rel`/`filepath.Join` render clean component lists. -/
def sepJoin : List String → String
  | [] => ""
  | [c] => c
  | c :: c' :: rest => c ++ "/" ++ sepJoin (c' :: rest)

/-- A well-formed path component: nonempty and free of the separator. -/
def WfComp (c : List Char) : Prop := c ≠ [] ∧ '/' ∉ c

/-- All components of a (relative) component-list path are well-formed. -/
def WfPath (p : List (List Char)) : Prop := ∀ c ∈ p, WfComp c

instance : DecidablePred WfComp := fun c => by unfold WfComp; infer_instance

instance : DecidablePred WfPath := fun p => by unfold WfPath; infer_instance

/-- The absolute, cleaned string form of an absolute path given by its
component list: `"/"` for the root, `"/a/b"` for `[a, b]`.  This is the shape
`filepath.Clean` guarantees for absolute paths. -/
def absPathString (comps : List (List Char)) : String :=
  String.mk ('/' :: charJoin comps)

/-- Models Go `strings.HasPrefix(s, pre)`. -/
def goHasPrefix (s pre : String) : Bool :=
  pre.data.isPrefixOf s.data

theorem string_data_append (a b : String) : (a ++ b).data = a.data ++ b.data := rfl

/-- The error values a run can produce; each constructor corresponds to one
`fmt.Errorf` site (or `ctx.Err()`) in `crawl.go` / `mirrortransform.go`. -/
inductive RunError where
  /-- "output directory %q is inside input directory %q, ..." -/
  | circularOutputInsideInput (outputAbs inputAbs : String)
  /-- "input directory %q is inside output directory %q, ..." -/
  | circularInputInsideOutput (inputAbs outputAbs : String)
  /-- "failed to access %q: %w" (walk error, no ErrorCallback) -/
  | accessFailed (path e : String)
  /-- "error callback failed at %q: %w" -/
  | errorCallbackFailed (path e : String)
  /-- "stopped due to error at %q: %w" -/
  | stoppedAtError (path e : String)
  /-- "failed to create output directory %q: %w" -/
  | mkdirFailed (dir e : String)
  /-- "file callback failed for %q: %w" (the TransformError) -/
  | fileCallbackFailed (path e : String)
  /-- "processing stopped by callback at %q" (StoppedByCallback) -/
  | stoppedByCallback (path : String)
  /-- "failed to stat %q: %w" (watch event stat failure, no ErrorCallback) -/
  | statFailed (path e : String)
  /-- "failed to add watch for new directory %q: %w" -/
  | watchAddFailed (path e : String)
  /-- "watcher error: %w" (subscription-layer error, no ErrorCallback) -/
  | watcherError (e : String)
  /-- "error callback failed: %w" (watcher-error branch) -/
  | watchErrorCallbackFailed (e : String)
  /-- "stopped due to watcher error: %w" -/
  | stoppedByWatcherError (e : String)
  /-- `ctx.Err()` -/
  | cancelled
  deriving DecidableEq, Repr

/-- Models `checkCircularReference` (crawl.go lines 93-119) applied to the
already-absolutized, cleaned directory paths (`filepath.Abs` + `filepath.Clean`
are the identity on absolute clean paths, so the function is taken on their
output). -/
def checkCircularReference (inputAbs outputAbs : String) : Option RunError :=
  if goHasPrefix outputAbs (inputAbs ++ "/") || outputAbs == inputAbs then
    some (.circularOutputInsideInput outputAbs inputAbs)
  else if goHasPrefix inputAbs (outputAbs ++ "/") then
    some (.circularInputInsideOutput inputAbs outputAbs)
  else none

/-- The `".."`-resolution loop of `path.Clean` (Unix): processes the non-empty,
non-`"."` components left to right, popping on `".."` (except past the root
when `rooted`, where `".."` is dropped, and except onto a previous `".."` in a
relative path, where it is kept). `acc` holds the emitted components in
reverse. -/
def resolveDots (rooted : Bool) (acc : List (List Char)) : List (List Char) → List (List Char)
  | [] => acc.reverse
  | c :: rest =>
    if c = ['.', '.'] then
      match acc with
      | a :: acc' =>
        if a = ['.', '.'] then resolveDots rooted (c :: a :: acc') rest
        else resolveDots rooted acc' rest
      | [] =>
        if rooted then resolveDots rooted [] rest
        else resolveDots rooted [c] rest
    else resolveDots rooted (c :: acc) rest

/-- Models Go `path/filepath.Clean` on Unix: shortest lexically-equivalent
path — empty path becomes `"."`, `"."` and empty components are dropped,
`".."` components are resolved, a rooted result keeps its leading `'/'`, and
an empty result becomes `"."`. -/
def goClean (s : String) : String :=
  if s.data = [] then "."
  else
    let rooted := s.data.head? = some '/'
    let comps := (s.data.splitOn '/').filter (fun c => !c.isEmpty && !(c == ['.']))
    let out := charJoin (resolveDots rooted [] comps)
    let res := if rooted then '/' :: out else out
    if res = [] then "." else String.mk res

/-- Models Go `path/filepath.Dir`: everything up to (and including) the final
separator, then `Clean`; `"."` when there is no separator. -/
def goDirname (s : String) : String :=
  goClean (String.mk ((s.data.reverse.dropWhile (fun c => c ≠ '/')).reverse))

/-- The string `filepath.Rel(inputRoot, path)` produces for the entry at
relative component list `rel`: `"."` for the root itself, the `"/"`-joined
components otherwise. -/
def relString : List String → String
  | [] => "."
  | c :: rest => sepJoin (c :: rest)

/-- `filepath.Join(dir, relString rel)` for a cleaned `dir` and clean relative
components: `dir` itself when `rel` is `"."` (`Join(dir, ".") = dir`),
otherwise `dir ++ "/" ++ rel` — except that joining onto the root `"/"` does
not duplicate the separator. -/
def joinPath (dir : String) : List String → String
  | [] => dir
  | c :: rest => (if dir = "/" then "/" else dir ++ "/") ++ sepJoin (c :: rest)

/-- The run configuration as the crawl/watch code consumes it.  `inputAbs`
and `outputAbs` are the configured directories, taken already absolute and
cleaned (`NewMirrorTransform` cleans them; `filepath.Abs` is the identity on
absolute paths, and the walk addresses entries relative to `inputAbs`).
`matcher` is the external `doublestar.Match` predicate restricted to valid
patterns. -/
structure CrawlConfig where
  inputAbs : String
  outputAbs : String
  patterns : List String
  excludePatterns : List String
  matcher : String → String → Bool
  errorCallback : Option (String → String → Bool × Option String)

/-- "any exclude pattern matches relPath" (the loop over
`fm.config.ExcludePatterns`). -/
def exclMatch (cfg : CrawlConfig) (relPath : String) : Bool :=
  cfg.excludePatterns.any (fun p => cfg.matcher p relPath)

/-- "any include pattern matches relPath" (the loop over
`fm.config.Patterns`). -/
def inclMatch (cfg : CrawlConfig) (relPath : String) : Bool :=
  cfg.patterns.any (fun p => cfg.matcher p relPath)

mutual
/-- A filesystem subtree as `filepath.Walk` observes it.  `inaccessible e`
is an entry whose `lstat` fails with error `e`, so the walk function is
invoked for it with a non-nil error. -/
inductive FSTree where
  | file : FSTree
  | dir (children : FSForest) : FSTree
  | inaccessible (e : String) : FSTree
/-- The named children of a directory, in the (sorted) order `filepath.Walk`
visits them. -/
inductive FSForest where
  | nil : FSForest
  | cons (name : String) (t : FSTree) (rest : FSForest) : FSForest
end

mutual
/-- No entry of the subtree fails to `lstat`. -/
def FSTree.accessible : FSTree → Bool
  | .file => true
  | .dir ch => ch.accessible
  | .inaccessible _ => false
def FSForest.accessible : FSForest → Bool
  | .nil => true
  | .cons _ t rest => t.accessible && rest.accessible
end

/-- The `fileTask` struct of crawl.go. -/
structure fileTask where
  inputPath : String
  outputPath : String
  deriving DecidableEq, Repr

/-- The task `scanDirectory` enqueues for the matched file at relative
components `rel`: `path` as handed to the walk function, and
`outputPath = filepath.Join(cfg.OutputDir, relPath)`. -/
def mkTask (cfg : CrawlConfig) (rel : List String) : fileTask :=
  { inputPath := joinPath cfg.inputAbs rel, outputPath := joinPath cfg.outputAbs rel }

mutual
/-- The walk function of `scanDirectory` (crawl.go lines 122-200) over the
subtree at relative components `rel`, for a run in which cancellation never
fires: walk errors go through the ErrorCallback protocol; otherwise the
entry's relative path is tested against the exclude patterns first (a match
skips a file, `SkipDir`s a directory), directories recurse, and a file
matching an include pattern is enqueued with
`outputPath = Join(OutputDir, relPath)`. -/
def walkEntry (cfg : CrawlConfig) (rel : List String) : FSTree → Except RunError (List fileTask)
  | .inaccessible e =>
    match cfg.errorCallback with
    | some cb =>
      match cb (joinPath cfg.inputAbs rel) e with
      | (_, some retErr) => .error (.errorCallbackFailed (joinPath cfg.inputAbs rel) retErr)
      | (true, none) => .error (.stoppedAtError (joinPath cfg.inputAbs rel) e)
      | (false, none) => .ok []
    | none => .error (.accessFailed (joinPath cfg.inputAbs rel) e)
  | .file =>
    if exclMatch cfg (relString rel) then .ok []
    else if inclMatch cfg (relString rel) then .ok [mkTask cfg rel]
    else .ok []
  | .dir ch =>
    if exclMatch cfg (relString rel) then .ok []
    else walkForest cfg rel ch
/-- The walk continued over the remaining children of the directory at
`rel`; an error aborts the whole walk. -/
def walkForest (cfg : CrawlConfig) (rel : List String) : FSForest → Except RunError (List fileTask)
  | .nil => .ok []
  | .cons n t rest =>
    match walkEntry cfg (rel ++ [n]) t with
    | .error e => .error e
    | .ok ts =>
      match walkForest cfg rel rest with
      | .error e => .error e
      | .ok ts' => .ok (ts ++ ts')
end

mutual
/-- The relative component paths of all files in the subtree at `rel`
(readable or not — an `inaccessible` entry contributes nothing since its
contents cannot be observed). -/
def FSTree.filesAt (rel : List String) : FSTree → List (List String)
  | .file => [rel]
  | .dir ch => ch.filesAt rel
  | .inaccessible _ => []
def FSForest.filesAt (rel : List String) : FSForest → List (List String)
  | .nil => []
  | .cons n t rest => t.filesAt (rel ++ [n]) ++ rest.filesAt rel
end

/-- All relative paths on the chain from `rel` (inclusive) down to
`rel ++ suffix` (inclusive): the directories whose exclusion the walk tests
on the way to that entry, plus the entry itself. -/
def pathsAlong (rel : List String) : List String → List (List String)
  | [] => [rel]
  | s :: rest => rel :: pathsAlong (rel ++ [s]) rest

/-- The specification's selection predicate, stated from the claim's words
rather than from the walk: a file (at relative components `rs`) is selected
iff no exclude pattern matches it or any of its ancestor directories
(including the root `"."` — an exclude match on a directory excludes the
entire subtree), and at least one include pattern matches it. -/
def specSelected (cfg : CrawlConfig) (rs : List String) : Bool :=
  (pathsAlong [] rs).all (fun p => !exclMatch cfg (relString p)) && inclMatch cfg (relString rs)

/-- The file set the specification says a complete, error-free crawl passes
to the transform callback, as tasks. -/
def specSelectedTasks (cfg : CrawlConfig) (t : FSTree) : List fileTask :=
  ((t.filesAt []).filter (specSelected cfg)).map (mkTask cfg)

/-- `Crawl` up to the point where tasks are handed to the workers: the
circular-reference guard runs first (before any traversal), then the
directory scan produces the task list. -/
def crawlRun (cfg : CrawlConfig) (t : FSTree) : Except RunError (List fileTask) :=
  match checkCircularReference cfg.inputAbs cfg.outputAbs with
  | some e => .error e
  | none => walkEntry cfg [] t

/-- What a worker observes of its environment while processing one task:
the outcome `os.MkdirAll` would have (`none` = success, `some e` = failure
with error `e`), the FileCallback, and the configured ErrorCallback (which
`fileProcessor` never consults — it is recorded here precisely so that this
can be proved). -/
structure WorkerEnv where
  mkdirResult : String → Option String
  fileCallback : String → String → Bool × Option String
  errorCallback : Option (String → String → Bool × Option String)

/-- The observable actions of a worker processing one task, in order. -/
inductive WorkerEvent where
  /-- `os.MkdirAll(dir, 0755)` was called; `ok` records whether it succeeded
  (on success the directory exists from this point on). -/
  | mkdirAll (dir : String) (ok : Bool)
  /-- the transform callback was invoked with `(inputPath, outputPath)` -/
  | fileCallback (inputPath outputPath : String)
  /-- the ErrorCallback was invoked with `(path, err)` -/
  | errorCallbackInvoked (path e : String)
  deriving DecidableEq, Repr

/-- A worker's verdict after one task: keep looping, or report `e` on the
error channel and exit. -/
inductive ProcOutcome where
  | ok
  | fatal (e : RunError)
  deriving DecidableEq, Repr

/-- The body of the worker loop of `fileProcessor` (crawl.go lines 210-241)
for one received task: ensure the output directory exists via
`os.MkdirAll(filepath.Dir(task.outputPath))` — a failure is reported and the
callback is not invoked; then invoke the FileCallback — a returned error is
fatal (checked first), and `continue = false` with no error is fatal as
`stoppedByCallback`. -/
def processTask (env : WorkerEnv) (t : fileTask) : List WorkerEvent × ProcOutcome :=
  let outputDir := goDirname t.outputPath
  match env.mkdirResult outputDir with
  | some e => ([.mkdirAll outputDir false], .fatal (.mkdirFailed outputDir e))
  | none =>
    match env.fileCallback t.inputPath t.outputPath with
    | (_, some e) =>
      ([.mkdirAll outputDir true, .fileCallback t.inputPath t.outputPath],
       .fatal (.fileCallbackFailed t.inputPath e))
    | (true, none) =>
      ([.mkdirAll outputDir true, .fileCallback t.inputPath t.outputPath], .ok)
    | (false, none) =>
      ([.mkdirAll outputDir true, .fileCallback t.inputPath t.outputPath],
       .fatal (.stoppedByCallback t.inputPath))

/-- A worker draining the (closed) task channel: tasks are processed in
order until one is fatal; the trace of events and the first fatal report (if
any) are returned.  (With several workers the channel's tasks are partitioned
among them; each worker's behaviour per task is `processTask`.) -/
def processAll (env : WorkerEnv) : List fileTask → List WorkerEvent × Option RunError
  | [] => ([], none)
  | t :: rest =>
    match processTask env t with
    | (tr, .ok) =>
      let (tr', r) := processAll env rest
      (tr ++ tr', r)
    | (tr, .fatal e) => (tr, some e)

/-- The `(inputPath, outputPath)` pairs of the transform-callback invocations
in a worker trace. -/
def callbackCalls : List WorkerEvent → List (String × String)
  | [] => []
  | .fileCallback i o :: rest => (i, o) :: callbackCalls rest
  | _ :: rest => callbackCalls rest

/-- The three branches of the coordinator's final `select` (crawl.go lines
75-89; identically mirrortransform.go lines 466-480). -/
inductive SelectBranch where
  | ctxDone
  | errRecv
  | allDone
  deriving DecidableEq, Repr

/-- The coordinator's view when its `select` executes: whether the context
is cancelled, the errors sent to the capacity-1 `errChan` in arrival order
(the head is the buffered first error; later ones are never received), and
whether the WaitGroup has hit zero (`done` closed). -/
structure CoordState where
  ctxDone : Bool
  errSlot : List RunError
  workDone : Bool
  deriving DecidableEq, Repr

/-- Which `select` branches are ready in state `s`.  Go's `select` chooses
uniformly at random among the ready branches, so any ready branch is a
possible execution. -/
def branchReady (s : CoordState) : SelectBranch → Bool
  | .ctxDone => s.ctxDone
  | .errRecv => !s.errSlot.isEmpty
  | .allDone => s.workDone

/-- The value the coordinator returns when its `select` takes the given
(ready) branch: `ctx.Err()` on cancellation, the first latched error from
`errChan`, or `nil` when `done` was chosen. -/
def coordinatorResult (s : CoordState) (pick : SelectBranch) : Option RunError :=
  match pick with
  | .ctxDone => some .cancelled
  | .errRecv => s.errSlot.head?
  | .allDone => none

/-- The result `os.Stat(event.Name)` yields for a watch event's path. -/
inductive StatRes where
  | notExist
  | statErr (e : String)
  | isDir
  | isFile
  deriving DecidableEq, Repr

/-- An fsnotify event as `processWatchEvent` consumes it: the event's path
given by its components relative to `inputRoot` (fsnotify only reports paths
under watched directories), whether its operation includes Remove/Rename,
the stat outcome, and the result `watcher.Add` would have for a new
directory (`none` = success). -/
structure WatchFsEvent where
  relComps : List String
  isRemoveOrRename : Bool
  stat : StatRes
  addResult : Option String

/-- `processWatchEvent` (mirrortransform.go lines 594-690) for an uncancelled
run: Remove/Rename events are ignored; a vanished path is ignored; a stat
failure goes through the ErrorCallback protocol; a directory is tested
against the exclude patterns and, if not excluded, subscribed (an `Add`
failure is fatal); a file is dropped on an exclude match or no include
match, and enqueued otherwise.  `none` means the handler keeps looping. -/
def processWatchEvent (cfg : CrawlConfig) (ev : WatchFsEvent) : Option RunError :=
  if ev.isRemoveOrRename then none
  else
    let name := joinPath cfg.inputAbs ev.relComps
    match ev.stat with
    | .notExist => none
    | .statErr e =>
      match cfg.errorCallback with
      | some cb =>
        match cb name e with
        | (_, some retErr) => some (.errorCallbackFailed name retErr)
        | (true, none) => some (.stoppedAtError name e)
        | (false, none) => none
      | none => some (.statFailed name e)
    | .isDir =>
      if exclMatch cfg (relString ev.relComps) then none
      else
        match ev.addResult with
        | some e => some (.watchAddFailed name e)
        | none => none
    | .isFile =>
      if exclMatch cfg (relString ev.relComps) then none
      else if inclMatch cfg (relString ev.relComps) then none
      else none

/-- One arrival on the merged stream `handleWatchEvents` selects over. -/
inductive WatchInput where
  | ctxCancel
  | eventsClosed
  | errorsClosed
  | fsEvent (ev : WatchFsEvent)
  | watcherErr (e : String)

/-- What the watch event handler has done by the time the given inputs have
arrived: the error it sent to `errChan` (if any) and whether it has closed
the task channel and returned. -/
structure HandlerResult where
  errSent : Option RunError
  exited : Bool

/-- `handleWatchEvents` (mirrortransform.go lines 534-591) consuming the
merged input stream in order: cancellation or a closed fsnotify channel ends
the handler without an error; an event that `processWatchEvent` turns into
an error is sent and ends the handler; a watcher error goes through the
ErrorCallback protocol (fatal without a callback).  An exhausted input list
means the handler is still blocked on its `select`. -/
def handlerRun (cfg : CrawlConfig) : List WatchInput → HandlerResult
  | [] => ⟨none, false⟩
  | .ctxCancel :: _ => ⟨none, true⟩
  | .eventsClosed :: _ => ⟨none, true⟩
  | .errorsClosed :: _ => ⟨none, true⟩
  | .fsEvent ev :: rest =>
    match processWatchEvent cfg ev with
    | some e => ⟨some e, true⟩
    | none => handlerRun cfg rest
  | .watcherErr e :: rest =>
    match cfg.errorCallback with
    | none => ⟨some (.watcherError e), true⟩
    | some cb =>
      match cb "watcher" e with
      | (_, some retErr) => ⟨some (.watchErrorCallbackFailed retErr), true⟩
      | (true, none) => ⟨some (.stoppedByWatcherError e), true⟩
      | (false, none) => handlerRun cfg rest

/-- A `Watch` run (mirrortransform.go lines 408-481), for runs in which the
initial `addWatchDirs` walk succeeds and the workers process their tasks
without failure (`workerErrs` lists any errors workers did send): the
circular-reference guard runs first, before the watcher is created or any
directory subscribed; then the event handler consumes `inputs`; once the
handler has exited, so do the workers (the task channel is closed), making
the `done` branch ready.  `none` means the call is still blocked;
`some r` means it returns `r` (`r = none` is a `nil` return). -/
def watchRun (cfg : CrawlConfig) (inputs : List WatchInput) (workerErrs : List RunError)
    (ctxDoneAtSelect : Bool) (pick : SelectBranch) : Option (Option RunError) :=
  match checkCircularReference cfg.inputAbs cfg.outputAbs with
  | some e => some (some e)
  | none =>
    let h := handlerRun cfg inputs
    let s : CoordState :=
      { ctxDone := ctxDoneAtSelect,
        errSlot := h.errSent.toList ++ workerErrs,
        workDone := h.exited }
    if branchReady s pick then some (coordinatorResult s pick) else none

/-- The `Config` struct of mirrortransform.go.  The callbacks are optional
function values (`nil` in Go is `none`). -/
structure Config where
  InputDir : String
  OutputDir : String
  Patterns : List String
  ExcludePatterns : List String
  Concurrency : Int
  MaxConcurrency : Int
  FileCallback : Option (String → String → Bool × Option String)
  ErrorCallback : Option (String → String → Bool × Option String)

/-- `NewMirrorTransform` (mirrortransform.go lines 71-93).  Go receives
`*Config` and mutates the caller's struct through it before copying it into
the returned value; the model returns the pair (caller's `Config` after the
call, the `config` field of the constructed `mirrorTransform`). -/
def newMirrorTransform (config : Config) : Except String (Config × Config) :=
  if config.InputDir = "" then .error "input directory is required"
  else if config.OutputDir = "" then .error "output directory is required"
  else if config.Patterns = [] then .error "at least one pattern is required"
  else if config.FileCallback.isNone then .error "file callback is required"
  else
    let config' := { config with
      InputDir := goClean config.InputDir,
      OutputDir := goClean config.OutputDir }
    .ok (config', config')

/-- The effective worker count both `Crawl` (crawl.go lines 29-36) and
`Watch` (mirrortransform.go lines 421-429) compute: `maxConcurrency`
defaults to `runtime.NumCPU()` when `≤ 0`, and `concurrency` is replaced by
`maxConcurrency` when `≤ 0` or greater than it. -/
def effectiveConcurrency (concurrency maxConcurrency numCPU : Int) : Int :=
  let m := if maxConcurrency ≤ 0 then numCPU else maxConcurrency
  if concurrency ≤ 0 || concurrency > m then m else concurrency

/-- For a single-slot holder carrying exactly one error, with neither
cancellation nor completion ready, every ready branch of the coordinator's
select returns that error. -/
theorem singleErrorSelect (err : RunError) (pick : SelectBranch)
    (h : branchReady ⟨false, [err], false⟩ pick = true) :
    coordinatorResult ⟨false, [err], false⟩ pick = some err := by
  cases pick <;> simp_all [branchReady, coordinatorResult]

/-- C8: the effective worker count used by `Crawl` and `Watch` is
`min(concurrency, maxConcurrency)` when `concurrency > 0` and
`maxConcurrency` otherwise, where `maxConcurrency` is replaced by the host's
logical core count whenever it is unset or `≤ 0`. -/
theorem effective_concurrency_spec (c m n : Int) :
    effectiveConcurrency c m n =
      (if 0 < c then min c (if m ≤ 0 then n else m) else (if m ≤ 0 then n else m)) := by
  unfold effectiveConcurrency
  split_ifs <;> simp_all [min_def] <;> omega

/-- C9: `NewMirrorTransform` overwrites the caller's `InputDir` and
`OutputDir` through the received pointer with their path-cleaned values
before copying the struct into the new instance, and leaves every other
field of the caller's `Config` unchanged (the stored copy equals the
caller's mutated struct). -/
theorem newMirrorTransform_mutates_only_dirs (cfg caller stored : Config)
    (h : newMirrorTransform cfg = .ok (caller, stored)) :
    caller.InputDir = goClean cfg.InputDir ∧
    caller.OutputDir = goClean cfg.OutputDir ∧
    caller.Patterns = cfg.Patterns ∧
    caller.ExcludePatterns = cfg.ExcludePatterns ∧
    caller.Concurrency = cfg.Concurrency ∧
    caller.MaxConcurrency = cfg.MaxConcurrency ∧
    caller.FileCallback = cfg.FileCallback ∧
    caller.ErrorCallback = cfg.ErrorCallback ∧
    stored = caller := by
  unfold newMirrorTransform at h
  split_ifs at h
  injection h with h
  injection h with h1 h2
  subst h1
  subst h2
  simp

/-- A configuration exercising `newMirrorTransform` with uncleaned
directories. -/
def exConfig : Config :=
  { InputDir := "in/./sub", OutputDir := "out//x", Patterns := ["**/*.jpg"],
    ExcludePatterns := ["tmp/**"], Concurrency := 2, MaxConcurrency := 0,
    FileCallback := some (fun _ _ => (true, none)), ErrorCallback := none }

/-- The caller's `Config` after `newMirrorTransform exConfig` returns. -/
def exConfigAfter : Config :=
  { exConfig with InputDir := goClean exConfig.InputDir,
                  OutputDir := goClean exConfig.OutputDir }

theorem newMirrorTransform_mutates_only_dirs_witness :
    exConfigAfter.InputDir = goClean exConfig.InputDir ∧
    exConfigAfter.Patterns = exConfig.Patterns ∧
    exConfigAfter.InputDir = "in/sub" ∧ exConfig.InputDir = "in/./sub" := by
  refine ⟨(newMirrorTransform_mutates_only_dirs exConfig exConfigAfter exConfigAfter rfl).1,
    (newMirrorTransform_mutates_only_dirs exConfig exConfigAfter exConfigAfter rfl).2.2.1,
    by decide, rfl⟩

/-- C2: the worker creates `dirname(outputPath)` (with all missing parents,
via `MkdirAll`) before invoking the transform callback — whenever the
callback is invoked for a task, the preceding `MkdirAll` of that directory
succeeded and is the first event of the task's trace; and when that
directory creation fails, the callback is not invoked and the worker reports
the filesystem error. -/
theorem worker_creates_output_dir_before_callback (env : WorkerEnv) (t : fileTask) :
    (WorkerEvent.fileCallback t.inputPath t.outputPath ∈ (processTask env t).1 →
      env.mkdirResult (goDirname t.outputPath) = none ∧
      (processTask env t).1.head? =
        some (.mkdirAll (goDirname t.outputPath) true)) ∧
    (∀ e, env.mkdirResult (goDirname t.outputPath) = some e →
      WorkerEvent.fileCallback t.inputPath t.outputPath ∉ (processTask env t).1 ∧
      (processTask env t).2 = .fatal (.mkdirFailed (goDirname t.outputPath) e)) := by
  rcases hm : env.mkdirResult (goDirname t.outputPath) with _ | e
  · rcases hc : env.fileCallback t.inputPath t.outputPath with ⟨b, _ | e'⟩
    · cases b <;> simp [processTask, hm, hc]
    · simp [processTask, hm, hc]
  · simp [processTask, hm]

/-- A worker environment in which everything succeeds. -/
def okEnv : WorkerEnv :=
  { mkdirResult := fun _ => none,
    fileCallback := fun _ _ => (true, none),
    errorCallback := none }

/-- A sample task. -/
def exTask : fileTask := { inputPath := "/in/d/a.jpg", outputPath := "/out/d/a.jpg" }

theorem worker_creates_output_dir_before_callback_witness :
    (processTask okEnv exTask).1.head? =
      some (.mkdirAll (goDirname exTask.outputPath) true) ∧
    okEnv.mkdirResult (goDirname exTask.outputPath) = none ∧
    goDirname exTask.outputPath = "/out/d" := by
  have h := (worker_creates_output_dir_before_callback okEnv exTask).1 (by decide)
  exact ⟨h.2, h.1, by decide⟩

/-- C5: a transform-callback invocation returning a non-nil error makes the
worker report the `TransformError` wrapping the callback's error and the
input path; returning `(false, nil)` makes it report the stopped-by-callback
error carrying the input path; in both cases the report is fatal (with the
slot holding it and neither cancellation nor completion ready, the
coordinator returns exactly it), and the Error Callback is never invoked by
the worker. -/
theorem transform_callback_error_is_fatal (env : WorkerEnv) (t : fileTask)
    (hmk : env.mkdirResult (goDirname t.outputPath) = none) :
    (∀ cont e, env.fileCallback t.inputPath t.outputPath = (cont, some e) →
      (processTask env t).2 = .fatal (.fileCallbackFailed t.inputPath e) ∧
      ∀ pick, branchReady ⟨false, [RunError.fileCallbackFailed t.inputPath e], false⟩ pick = true →
        coordinatorResult ⟨false, [RunError.fileCallbackFailed t.inputPath e], false⟩ pick =
          some (.fileCallbackFailed t.inputPath e)) ∧
    (env.fileCallback t.inputPath t.outputPath = (false, none) →
      (processTask env t).2 = .fatal (.stoppedByCallback t.inputPath) ∧
      ∀ pick, branchReady ⟨false, [RunError.stoppedByCallback t.inputPath], false⟩ pick = true →
        coordinatorResult ⟨false, [RunError.stoppedByCallback t.inputPath], false⟩ pick =
          some (.stoppedByCallback t.inputPath)) ∧
    (∀ p e, WorkerEvent.errorCallbackInvoked p e ∉ (processTask env t).1) := by
  refine ⟨?_, ?_, ?_⟩
  · intro cont e hc
    exact ⟨by simp [processTask, hmk, hc], fun pick h => singleErrorSelect _ pick h⟩
  · intro hc
    exact ⟨by simp [processTask, hmk, hc], fun pick h => singleErrorSelect _ pick h⟩
  · intro p e
    rcases hc : env.fileCallback t.inputPath t.outputPath with ⟨b, _ | e'⟩
    · cases b <;> simp [processTask, hmk, hc]
    · simp [processTask, hmk, hc]

/-- A worker environment whose transform callback fails. -/
def failEnv : WorkerEnv :=
  { mkdirResult := fun _ => none,
    fileCallback := fun _ _ => (true, some "decode error"),
    errorCallback := some (fun _ _ => (false, none)) }

theorem transform_callback_error_is_fatal_witness :
    (processTask failEnv exTask).2 =
      .fatal (.fileCallbackFailed exTask.inputPath "decode error") ∧
    (∀ p e, WorkerEvent.errorCallbackInvoked p e ∉ (processTask failEnv exTask).1) := by
  have h := transform_callback_error_is_fatal failEnv exTask rfl
  exact ⟨(h.1 true "decode error" rfl).1, h.2.2⟩

/-- A fatal worker error, for exercising the coordinator's select. -/
def exFatal : RunError := .fileCallbackFailed "/in/a.jpg" "boom"

/-- C4 counterexample: with a fatal error already latched in the single-slot
channel AND the context cancelled, the coordinator's `select` has two ready
branches and Go picks one at random — choosing the cancellation branch is a
possible execution, and it returns the cancellation error, not the latched
fatal error.  Fatal errors therefore do not take precedence over
cancellation. -/
theorem select_no_fatal_precedence_counterexample :
    branchReady ⟨true, [exFatal], false⟩ .ctxDone = true ∧
    branchReady ⟨true, [exFatal], false⟩ .errRecv = true ∧
    coordinatorResult ⟨true, [exFatal], false⟩ .ctxDone = some .cancelled ∧
    (⟨true, [exFatal], false⟩ : CoordState).errSlot.head? = some exFatal ∧
    RunError.cancelled ≠ exFatal := by
  refine ⟨rfl, rfl, rfl, rfl, by decide⟩

/-- C4 amended: at most one error is returned per run; whenever the error
branch is the one selected — in particular whenever it is the only ready
branch, i.e. neither cancellation nor completion has occurred — the value
returned is the first error latched into the single-slot channel (later
workers' errors, sitting behind the head, are discarded); and any returned
error is either that first latched error or the cancellation error, never a
later latched one.  When cancellation (or completion) is simultaneously
ready, the select chooses among the ready branches nondeterministically, so
the fatal error is not guaranteed precedence. -/
theorem select_returns_first_latched_error (s : CoordState) (pick : SelectBranch)
    (h : branchReady s pick = true) :
    (pick = .errRecv → coordinatorResult s pick = s.errSlot.head?) ∧
    (s.ctxDone = false → s.workDone = false → coordinatorResult s pick = s.errSlot.head?) ∧
    (∀ e, coordinatorResult s pick = some e →
      e = .cancelled ∨ s.errSlot.head? = some e) := by
  cases pick <;> simp_all [branchReady, coordinatorResult]

theorem select_returns_first_latched_error_witness :
    coordinatorResult ⟨false, [exFatal, RunError.stoppedByCallback "/in/b.jpg"], false⟩ .errRecv =
      some exFatal := by
  have h := select_returns_first_latched_error
    ⟨false, [exFatal, RunError.stoppedByCallback "/in/b.jpg"], false⟩ .errRecv rfl
  exact h.1 rfl

/-- A worker environment with a failing `MkdirAll` and a configured Error
Callback that downgrades every error it is offered. -/
def mkdirFailEnv : WorkerEnv :=
  { mkdirResult := fun _ => some "permission denied",
    fileCallback := fun _ _ => (true, none),
    errorCallback := some (fun _ _ => (false, none)) }

/-- C6 counterexample: a mkdir failure is NOT routed through the Error
Callback.  Even with an Error Callback configured (one that would downgrade
any error to "continue"), the worker's trace for a task whose output
directory cannot be created contains no Error Callback invocation — only
the failed `MkdirAll` — and the worker reports the filesystem error as
fatal. -/
theorem mkdir_failure_never_offered_counterexample :
    mkdirFailEnv.errorCallback.isSome = true ∧
    (processTask mkdirFailEnv exTask).1 =
      [.mkdirAll (goDirname exTask.outputPath) false] ∧
    (processTask mkdirFailEnv exTask).2 =
      .fatal (.mkdirFailed (goDirname exTask.outputPath) "permission denied") := by
  exact ⟨rfl, rfl, rfl⟩

/-- C6 amended: stat and walk errors arising during traversal are offered
to the Error Callback first, which may downgrade them to continue (the
entry is skipped and the walk goes on) or make them fatal — and absent an
Error Callback they are immediately fatal; but mkdir failures in the worker
are never offered to the Error Callback: they are always fatal, even when a
callback is configured.  Conjuncts: (1) walk error with no callback is
fatal; (2) walk error with a downgrading callback skips the entry and an
enclosing directory walk continues with the remaining entries; (3) a
callback returning an error or `stop` makes the walk fail; (4) the same
protocol governs stat errors on watch events; (5) a mkdir failure is fatal
with no Error Callback invocation, for every environment. -/
theorem filesystem_error_propagation (cfg : CrawlConfig) (rel : List String) (e : String) :
    (cfg.errorCallback = none →
      walkEntry cfg rel (.inaccessible e) =
        .error (.accessFailed (joinPath cfg.inputAbs rel) e)) ∧
    (∀ f, cfg.errorCallback = some f →
      (f (joinPath cfg.inputAbs rel) e = (false, none) →
        walkEntry cfg rel (.inaccessible e) = .ok [] ∧
        ∀ n rest, f (joinPath cfg.inputAbs (rel ++ [n])) e = (false, none) →
          walkForest cfg rel (.cons n (.inaccessible e) rest) = walkForest cfg rel rest) ∧
      (∀ cont r, f (joinPath cfg.inputAbs rel) e = (cont, some r) →
        walkEntry cfg rel (.inaccessible e) =
          .error (.errorCallbackFailed (joinPath cfg.inputAbs rel) r)) ∧
      (f (joinPath cfg.inputAbs rel) e = (true, none) →
        walkEntry cfg rel (.inaccessible e) =
          .error (.stoppedAtError (joinPath cfg.inputAbs rel) e))) ∧
    (∀ ev : WatchFsEvent, ev.isRemoveOrRename = false → ev.stat = .statErr e →
      (cfg.errorCallback = none →
        processWatchEvent cfg ev =
          some (.statFailed (joinPath cfg.inputAbs ev.relComps) e)) ∧
      (∀ f, cfg.errorCallback = some f →
        f (joinPath cfg.inputAbs ev.relComps) e = (false, none) →
        processWatchEvent cfg ev = none)) ∧
    (∀ (env : WorkerEnv) (t : fileTask) (e' : String),
      env.mkdirResult (goDirname t.outputPath) = some e' →
      (processTask env t).1 = [.mkdirAll (goDirname t.outputPath) false] ∧
      (processTask env t).2 = .fatal (.mkdirFailed (goDirname t.outputPath) e') ∧
      ∀ p q, WorkerEvent.errorCallbackInvoked p q ∉ (processTask env t).1) := by
  refine ⟨?_, ?_, ?_, ?_⟩
  · intro h
    simp [walkEntry, h]
  · intro f hf
    refine ⟨?_, ?_, ?_⟩
    · intro hcb
      refine ⟨by simp [walkEntry, hf, hcb], ?_⟩
      intro n rest hcb'
      simp only [walkForest, walkEntry, hf, hcb']
      cases walkForest cfg rel rest <;> rfl
    · intro cont r hcb
      simp [walkEntry, hf, hcb]
    · intro hcb
      simp [walkEntry, hf, hcb]
  · intro ev hrr hstat
    constructor
    · intro h
      simp [processWatchEvent, hrr, hstat, h]
    · intro f hf hcb
      simp [processWatchEvent, hrr, hstat, hf, hcb]
  · intro env t e' hm
    refine ⟨by simp [processTask, hm], by simp [processTask, hm], ?_⟩
    intro p q
    simp [processTask, hm]

/-- A crawl configuration with a downgrading Error Callback. -/
def cbCfg : CrawlConfig :=
  { inputAbs := "/in", outputAbs := "/out", patterns := ["a.jpg"],
    excludePatterns := [], matcher := fun p s => p == s,
    errorCallback := some (fun _ _ => (false, none)) }

theorem filesystem_error_propagation_witness :
    walkEntry cbCfg ["locked"] (.inaccessible "EACCES") = .ok [] ∧
    walkForest cbCfg [] (.cons "locked" (.inaccessible "EACCES")
        (.cons "a.jpg" .file .nil)) =
      walkForest cbCfg [] (.cons "a.jpg" .file .nil) := by
  have h := ((filesystem_error_propagation cbCfg ["locked"] "EACCES").2.1
    (fun _ _ => (false, none)) rfl).1 rfl
  have h2 := (((filesystem_error_propagation cbCfg [] "EACCES").2.1
    (fun _ _ => (false, none)) rfl).1 rfl).2 "locked" (.cons "a.jpg" .file .nil) rfl
  exact ⟨h.1, h2⟩

/-- The selection predicate relativized to the subtree rooted at `rel`: the
exclusion tests performed on the chain from `rel` (inclusive) down to the
file, plus the include test on the file. -/
def selBelow (cfg : CrawlConfig) (rel rs : List String) : Bool :=
  (pathsAlong rel (rs.drop rel.length)).all (fun p => !exclMatch cfg (relString p)) &&
    inclMatch cfg (relString rs)

/-- Like `selBelow`, but without the test at `rel` itself (which the walk of
a directory's children leaves to the caller). -/
def selTail (cfg : CrawlConfig) (rel rs : List String) : Bool :=
  ((pathsAlong rel (rs.drop rel.length)).drop 1).all (fun p => !exclMatch cfg (relString p)) &&
    inclMatch cfg (relString rs)

theorem drop_append_cons (rel : List String) (n : String) (suf : List String) :
    (rel ++ n :: suf).drop (rel ++ [n]).length = suf := by
  have h : rel ++ n :: suf = (rel ++ [n]) ++ suf := by simp
  rw [h, List.drop_left]

mutual
theorem filesAt_entry_shape (rel : List String) (t : FSTree) :
    ∀ rs ∈ t.filesAt rel, ∃ suf, rs = rel ++ suf := by
  cases t with
  | file =>
    intro rs h
    simp [FSTree.filesAt] at h
    exact ⟨[], by simp [h]⟩
  | dir ch =>
    intro rs h
    obtain ⟨n, suf, hs⟩ := filesAt_forest_shape rel ch rs h
    exact ⟨n :: suf, hs⟩
  | inaccessible e =>
    intro rs h
    simp [FSTree.filesAt] at h
theorem filesAt_forest_shape (rel : List String) (ch : FSForest) :
    ∀ rs ∈ ch.filesAt rel, ∃ n suf, rs = rel ++ n :: suf := by
  cases ch with
  | nil =>
    intro rs h
    simp [FSForest.filesAt] at h
  | cons n t rest =>
    intro rs h
    rw [FSForest.filesAt, List.mem_append] at h
    rcases h with h | h
    · obtain ⟨suf, hs⟩ := filesAt_entry_shape (rel ++ [n]) t rs h
      exact ⟨n, suf, by simp [hs]⟩
    · exact filesAt_forest_shape rel rest rs h
end

theorem selBelow_self (cfg : CrawlConfig) (rel : List String) :
    selBelow cfg rel rel =
      (!exclMatch cfg (relString rel) && inclMatch cfg (relString rel)) := by
  simp [selBelow, List.drop_length, pathsAlong]

theorem selBelow_cons (cfg : CrawlConfig) (rel : List String) (n : String) (suf : List String) :
    selBelow cfg rel (rel ++ n :: suf) =
      (!exclMatch cfg (relString rel) && selBelow cfg (rel ++ [n]) (rel ++ n :: suf)) := by
  simp [selBelow, List.drop_left, drop_append_cons, pathsAlong, Bool.and_assoc]

theorem selTail_cons (cfg : CrawlConfig) (rel : List String) (n : String) (suf : List String) :
    selTail cfg rel (rel ++ n :: suf) = selBelow cfg (rel ++ [n]) (rel ++ n :: suf) := by
  simp [selTail, selBelow, List.drop_left, drop_append_cons, pathsAlong]

mutual
/-- The walk of an accessible subtree succeeds and enqueues exactly the
files selected by the specification's predicate relativized to the
subtree's root. -/
theorem walkEntry_spec (cfg : CrawlConfig) (rel : List String) (t : FSTree)
    (h : t.accessible = true) :
    walkEntry cfg rel t =
      .ok (((t.filesAt rel).filter (selBelow cfg rel)).map (mkTask cfg)) := by
  cases t with
  | file =>
    rw [walkEntry, FSTree.filesAt]
    rcases he : exclMatch cfg (relString rel) with _ | _ <;>
      rcases hi : inclMatch cfg (relString rel) with _ | _ <;>
        simp [selBelow_self, he, hi]
  | dir ch =>
    rw [walkEntry, FSTree.filesAt]
    rcases he : exclMatch cfg (relString rel) with _ | _
    · rw [if_neg (by simp [he])]
      rw [walkForest_spec cfg rel ch (by simpa [FSTree.accessible] using h)]
      congr 1
      congr 1
      refine (List.filter_congr ?_).symm
      intro rs hrs
      obtain ⟨n, suf, hs⟩ := filesAt_forest_shape rel ch rs hrs
      rw [hs, selBelow_cons, selTail_cons, he]
      simp
    · rw [if_pos (by simp [he])]
      have : ∀ rs ∈ ch.filesAt rel, ¬ selBelow cfg rel rs = true := by
        intro rs hrs
        obtain ⟨n, suf, hs⟩ := filesAt_forest_shape rel ch rs hrs
        rw [hs, selBelow_cons, he]
        simp
      rw [List.filter_eq_nil_iff.mpr this]
      rfl
  | inaccessible e =>
    simp [FSTree.accessible] at h
/-- The walk over an accessible forest of children succeeds and enqueues
exactly the files selected by the predicate without the test at the parent
(which the caller performed). -/
theorem walkForest_spec (cfg : CrawlConfig) (rel : List String) (ch : FSForest)
    (h : ch.accessible = true) :
    walkForest cfg rel ch =
      .ok (((ch.filesAt rel).filter (selTail cfg rel)).map (mkTask cfg)) := by
  cases ch with
  | nil => rfl
  | cons n t rest =>
    rw [FSForest.accessible, Bool.and_eq_true] at h
    rw [walkForest, walkEntry_spec cfg (rel ++ [n]) t h.1,
      walkForest_spec cfg rel rest h.2]
    dsimp only
    rw [FSForest.filesAt, List.filter_append, List.map_append]
    congr 2
    refine congrArg _ (List.filter_congr ?_)
    intro rs hrs
    obtain ⟨suf, hs⟩ := filesAt_entry_shape (rel ++ [n]) t rs hrs
    have hs' : rs = rel ++ n :: suf := by simp [hs]
    rw [hs', selTail_cons]
end

theorem selBelow_nil (cfg : CrawlConfig) (rs : List String) :
    selBelow cfg [] rs = specSelected cfg rs := by
  simp [selBelow, specSelected]

theorem callbackCalls_append (a b : List WorkerEvent) :
    callbackCalls (a ++ b) = callbackCalls a ++ callbackCalls b := by
  induction a with
  | nil => rfl
  | cons x rest ih => cases x <;> simp [callbackCalls, ih]

/-- In an environment where every `MkdirAll` succeeds and the transform
callback always answers `(true, nil)`, a worker drains its task list
invoking the callback exactly once per task, in order, with the tasks' own
path pairs, and reports no error. -/
theorem processAll_success (env : WorkerEnv)
    (hmk : ∀ d, env.mkdirResult d = none)
    (hcb : ∀ i o, env.fileCallback i o = (true, none)) :
    ∀ ts : List fileTask,
      callbackCalls (processAll env ts).1 = ts.map (fun tk => (tk.inputPath, tk.outputPath)) ∧
      (processAll env ts).2 = none := by
  intro ts
  induction ts with
  | nil => exact ⟨rfl, rfl⟩
  | cons t rest ih =>
    have hp : processTask env t =
        ([.mkdirAll (goDirname t.outputPath) true,
          .fileCallback t.inputPath t.outputPath], .ok) := by
      simp [processTask, hmk, hcb]
    constructor
    · simp [processAll, hp, callbackCalls_append, callbackCalls, ih.1]
    · simp [processAll, hp, ih.2]

/-- C1: for a run of `Crawl` that completes without cancellation and without
error (the guard passes, every entry is accessible, directory creation
succeeds, and the callback always continues), the tasks produced — and hence
the files passed to the transform callback, exactly once each — are exactly
the files under the input root matching at least one include pattern and no
exclude pattern, where excludes are evaluated first and an exclude match on
a directory (including the root) skips that entire subtree; each carries
`outputPath = Join(outputRoot, relativePath)`. -/
theorem crawl_passes_exactly_matching_files (cfg : CrawlConfig) (t : FSTree) (env : WorkerEnv)
    (hguard : checkCircularReference cfg.inputAbs cfg.outputAbs = none)
    (hacc : t.accessible = true)
    (hmk : ∀ d, env.mkdirResult d = none)
    (hcb : ∀ i o, env.fileCallback i o = (true, none)) :
    crawlRun cfg t = .ok (specSelectedTasks cfg t) ∧
    callbackCalls (processAll env (specSelectedTasks cfg t)).1 =
      (specSelectedTasks cfg t).map (fun tk => (tk.inputPath, tk.outputPath)) ∧
    (processAll env (specSelectedTasks cfg t)).2 = none := by
  refine ⟨?_, (processAll_success env hmk hcb _).1, (processAll_success env hmk hcb _).2⟩
  rw [crawlRun, hguard, walkEntry_spec cfg [] t hacc]
  rw [specSelectedTasks]
  dsimp only
  congr 1

/-- The scenario of spec §8: tree `{a.jpg, temp/b.jpg, dir/c.png}`, includes
`a.jpg` and `dir/c.png`, exclude `temp` (with a literal-equality matcher). -/
def exCfg : CrawlConfig :=
  { inputAbs := "/in", outputAbs := "/out",
    patterns := ["a.jpg", "dir/c.png", "temp/b.jpg"],
    excludePatterns := ["temp"],
    matcher := fun p s => p == s,
    errorCallback := none }

/-- The scenario tree `{a.jpg, temp/b.jpg, dir/c.png}`. -/
def exTree : FSTree :=
  .dir (.cons "a.jpg" .file
    (.cons "dir" (.dir (.cons "c.png" .file .nil))
      (.cons "temp" (.dir (.cons "b.jpg" .file .nil)) .nil)))

theorem crawl_passes_exactly_matching_files_witness :
    crawlRun exCfg exTree = .ok (specSelectedTasks exCfg exTree) ∧
    specSelectedTasks exCfg exTree =
      [{ inputPath := "/in/a.jpg", outputPath := "/out/a.jpg" },
       { inputPath := "/in/dir/c.png", outputPath := "/out/dir/c.png" }] ∧
    callbackCalls (processAll okEnv (specSelectedTasks exCfg exTree)).1 =
      [("/in/a.jpg", "/out/a.jpg"), ("/in/dir/c.png", "/out/dir/c.png")] := by
  have h := crawl_passes_exactly_matching_files exCfg exTree okEnv rfl rfl
    (fun _ => rfl) (fun _ _ => rfl)
  refine ⟨h.1, by decide, ?_⟩
  rw [h.2.1]
  decide

theorem charJoin_cons (c : List Char) (rest : List (List Char)) (h : rest ≠ []) :
    charJoin (c :: rest) = c ++ '/' :: charJoin rest := by
  cases rest with
  | nil => exact absurd rfl h
  | cons d ds => rfl

/-- Two separator-free blocks followed by a separator split identically:
the first separator of the list pins down the block boundary. -/
theorem slash_split (u : List Char) : ∀ (v x y : List Char), '/' ∉ u → '/' ∉ v →
    u ++ '/' :: x = v ++ '/' :: y → u = v ∧ x = y := by
  induction u with
  | nil =>
    intro v x y _ hv h
    cases v with
    | nil => simpa using h
    | cons b bs =>
      simp only [List.nil_append, List.cons_append, List.cons.injEq] at h
      exact absurd (h.1 ▸ List.mem_cons_self b bs) hv
  | cons a as ih =>
    intro v x y hu hv h
    cases v with
    | nil =>
      simp only [List.nil_append, List.cons_append, List.cons.injEq] at h
      exact absurd (h.1 ▸ List.mem_cons_self a as) (h.1 ▸ hu)
    | cons b bs =>
      simp only [List.cons_append, List.cons.injEq] at h
      obtain ⟨rfl, h2⟩ := h
      have hu' : '/' ∉ as := fun hx => hu (List.mem_cons_of_mem _ hx)
      have hv' : '/' ∉ bs := fun hx => hv (List.mem_cons_of_mem _ hx)
      obtain ⟨rfl, rfl⟩ := ih bs x y hu' hv' h2
      exact ⟨rfl, rfl⟩

/-- The join of a well-formed component list never starts with the
separator. -/
theorem charJoin_ne_slash_cons (b : List (List Char)) (hb : WfPath b) (r : List Char) :
    charJoin b ≠ '/' :: r := by
  cases b with
  | nil => simp [charJoin]
  | cons c rest =>
    have hc := hb c (List.mem_cons_self c rest)
    cases rest with
    | nil =>
      intro h
      rw [charJoin] at h
      exact hc.2 (h ▸ List.mem_cons_self '/' r)
    | cons d ds =>
      intro h
      rw [charJoin_cons c (d :: ds) (by simp)] at h
      cases c with
      | nil => exact hc.1 rfl
      | cons ch ct =>
        rw [List.cons_append] at h
        injection h with h1 _
        exact hc.2 (h1 ▸ List.mem_cons_self ch ct)

/-- If the join of well-formed `b` extends the join of well-formed `a`
past a separator, then `b` properly extends `a` as a component list. -/
theorem charJoin_extension (a : List (List Char)) : ∀ (b : List (List Char)) (r : List Char),
    WfPath a → WfPath b → charJoin b = charJoin a ++ '/' :: r →
    ∃ b', b = a ++ b' ∧ b' ≠ [] := by
  induction a with
  | nil =>
    intro b r _ hb h
    rw [charJoin, List.nil_append] at h
    exact absurd h (charJoin_ne_slash_cons b hb r)
  | cons c a' ih =>
    intro b r hwa hb h
    have hc : WfComp c := hwa c (List.mem_cons_self c a')
    have hwa' : WfPath a' := fun x hx => hwa x (List.mem_cons_of_mem _ hx)
    cases b with
    | nil =>
      exfalso
      rw [charJoin] at h
      exact List.cons_ne_nil '/' r (List.append_eq_nil.mp h.symm).2
    | cons d b' =>
      have hd : WfComp d := hb d (List.mem_cons_self d b')
      have hb' : WfPath b' := fun x hx => hb x (List.mem_cons_of_mem _ hx)
      cases a' with
      | nil =>
        rw [charJoin] at h
        cases b' with
        | nil =>
          exfalso
          rw [charJoin] at h
          exact hd.2 (h ▸ List.mem_append_right c (List.mem_cons_self '/' r))
        | cons e es =>
          rw [charJoin_cons d (e :: es) (by simp)] at h
          obtain ⟨rfl, -⟩ := slash_split d c _ r hd.2 hc.2 h
          exact ⟨e :: es, rfl, by simp⟩
      | cons f fs =>
        have hstep : charJoin (c :: f :: fs) ++ '/' :: r =
            c ++ '/' :: (charJoin (f :: fs) ++ '/' :: r) := by
          rw [charJoin_cons c (f :: fs) (by simp)]
          simp
        rw [hstep] at h
        cases b' with
        | nil =>
          exfalso
          rw [show charJoin [d] = d from rfl] at h
          exact hd.2 (h ▸ List.mem_append_right c (List.mem_cons_self '/' _))
        | cons e es =>
          rw [charJoin_cons d (e :: es) (by simp)] at h
          obtain ⟨rfl, h2⟩ := slash_split d c _ _ hd.2 hc.2 h
          obtain ⟨b'', hb'', hne'⟩ := ih (e :: es) r hwa' hb' h2
          exact ⟨b'', by rw [List.cons_append, ← hb''], hne'⟩

/-- Joining concatenated nonempty component lists inserts a separator. -/
theorem charJoin_append (a : List (List Char)) : ∀ b : List (List Char), a ≠ [] → b ≠ [] →
    charJoin (a ++ b) = charJoin a ++ '/' :: charJoin b := by
  induction a with
  | nil => intro b ha _; exact absurd rfl ha
  | cons c a' ih =>
    intro b _ hb
    cases a' with
    | nil =>
      rw [show ([c] : List (List Char)) ++ b = c :: b from rfl,
        charJoin_cons c b hb]
      rfl
    | cons f fs =>
      rw [show (c :: f :: fs) ++ b = c :: ((f :: fs) ++ b) from rfl,
        charJoin_cons c ((f :: fs) ++ b) (by simp),
        ih b (by simp) hb,
        charJoin_cons c (f :: fs) (by simp)]
      simp

/-- `charJoin` is injective on well-formed component lists. -/
theorem charJoin_inj (a : List (List Char)) : ∀ b : List (List Char), WfPath a → WfPath b →
    charJoin a = charJoin b → a = b := by
  induction a with
  | nil =>
    intro b _ hb h
    cases b with
    | nil => rfl
    | cons d b' =>
      exfalso
      cases b' with
      | nil =>
        exact (hb d (List.mem_cons_self d [])).1 ((show charJoin [d] = d from rfl) ▸ h).symm
      | cons e es =>
        rw [charJoin, charJoin_cons d (e :: es) (by simp)] at h
        rcases hd : d with _ | ⟨ch, ct⟩
        · exact (hb d (List.mem_cons_self d _)).1 hd
        · rw [hd, List.cons_append] at h
          exact List.cons_ne_nil ch _ h.symm
  | cons c a' ih =>
    intro b hwa hb h
    have hc : WfComp c := hwa c (List.mem_cons_self c a')
    have hwa' : WfPath a' := fun x hx => hwa x (List.mem_cons_of_mem _ hx)
    cases b with
    | nil =>
      exfalso
      cases a' with
      | nil => exact hc.1 ((show charJoin [c] = c from rfl) ▸ h)
      | cons f fs =>
        rw [charJoin_cons c (f :: fs) (by simp), charJoin] at h
        rcases hc' : c with _ | ⟨ch, ct⟩
        · exact hc.1 hc'
        · rw [hc', List.cons_append] at h
          exact List.cons_ne_nil ch _ h
    | cons d b' =>
      have hd : WfComp d := hb d (List.mem_cons_self d b')
      have hb' : WfPath b' := fun x hx => hb x (List.mem_cons_of_mem _ hx)
      cases a' with
      | nil =>
        cases b' with
        | nil =>
          rw [show charJoin [c] = c from rfl, show charJoin [d] = d from rfl] at h
          rw [h]
        | cons e es =>
          exfalso
          rw [show charJoin [c] = c from rfl, charJoin_cons d (e :: es) (by simp)] at h
          exact hc.2 (h ▸ List.mem_append_right d (List.mem_cons_self '/' _))
      | cons f fs =>
        cases b' with
        | nil =>
          exfalso
          rw [show charJoin [d] = d from rfl, charJoin_cons c (f :: fs) (by simp)] at h
          exact hd.2 (h.symm ▸ List.mem_append_right c (List.mem_cons_self '/' _))
        | cons e es =>
          rw [charJoin_cons c (f :: fs) (by simp), charJoin_cons d (e :: es) (by simp)] at h
          obtain ⟨rfl, h2⟩ := slash_split c d _ _ hc.2 hd.2 h
          rw [ih (e :: es) hwa' hb' h2]

/-- The code's separator-appended prefix test on absolute path strings,
characterized at the component level. -/
theorem goHasPrefix_absPathString (a b : List (List Char)) :
    goHasPrefix (absPathString b) (absPathString a ++ "/") = true ↔
      ∃ r, charJoin b = charJoin a ++ '/' :: r := by
  have hdata : (absPathString a ++ "/").data = ('/' :: charJoin a) ++ ['/'] := by
    rw [string_data_append]
    rfl
  rw [goHasPrefix, hdata, List.isPrefixOf_iff_prefix]
  constructor
  · intro h
    rw [show (absPathString b).data = '/' :: charJoin b from rfl] at h
    rw [List.cons_append] at h
    rw [List.cons_prefix_cons] at h
    obtain ⟨t, ht⟩ := h.2
    exact ⟨t, by rw [← ht, List.append_assoc]; rfl⟩
  · rintro ⟨r, hr⟩
    rw [show (absPathString b).data = '/' :: charJoin b from rfl, hr]
    exact ⟨r, by simp⟩

/-- Equality of absolute path strings is equality of the joins. -/
theorem absPathString_eq (a b : List (List Char)) :
    (absPathString b == absPathString a) = true ↔ charJoin a = charJoin b := by
  rw [beq_iff_eq]
  constructor
  · intro h
    injection h with h
    injection h with _ h
    exact h.symm
  · intro h
    unfold absPathString
    rw [h]

/-- Sibling directories whose names share a string prefix. -/
def sibCfg : CrawlConfig :=
  { inputAbs := "/data/out", outputAbs := "/data/output", patterns := ["x.jpg"],
    excludePatterns := [], matcher := fun p s => p == s, errorCallback := none }

/-- A one-file tree under the sibling input directory. -/
def sibTree : FSTree := .dir (.cons "x.jpg" .file .nil)

/-- C10: the circular-reference check rejects only genuine containment or
equality — whenever it reports an error on two well-formed absolute paths,
one's component list is a prefix of the other's; and because the prefix
comparison appends the separator before testing, the sibling directories
`/data/out` and `/data/output` are accepted and the crawl proceeds into
traversal. -/
theorem circular_check_rejects_only_containment :
    (∀ a b : List (List Char), WfPath a → WfPath b →
      (checkCircularReference (absPathString a) (absPathString b)).isSome = true →
      a <+: b ∨ b <+: a) ∧
    checkCircularReference "/data/out" "/data/output" = none ∧
    crawlRun sibCfg sibTree =
      .ok [{ inputPath := "/data/out/x.jpg", outputPath := "/data/output/x.jpg" }] := by
  refine ⟨?_, by decide, rfl⟩
  intro a b hwa hwb h
  by_cases h1 : goHasPrefix (absPathString b) (absPathString a ++ "/") = true
  · obtain ⟨r, hr⟩ := (goHasPrefix_absPathString a b).mp h1
    obtain ⟨b', hb', -⟩ := charJoin_extension a b r hwa hwb hr
    exact Or.inl ⟨b', hb'.symm⟩
  · by_cases h2 : (absPathString b == absPathString a) = true
    · have hab := charJoin_inj a b hwa hwb ((absPathString_eq a b).mp h2)
      exact Or.inl (by rw [hab])
    · by_cases h3 : goHasPrefix (absPathString a) (absPathString b ++ "/") = true
      · obtain ⟨r, hr⟩ := (goHasPrefix_absPathString b a).mp h3
        obtain ⟨a', ha', -⟩ := charJoin_extension b a r hwb hwa hr
        exact Or.inr ⟨a', ha'.symm⟩
      · exfalso
        rw [checkCircularReference] at h
        simp [h1, h2, h3] at h

/-- A concrete instance: `/out` against `/out/x` is flagged, and flagging
indeed implies containment. -/
theorem circular_check_rejects_only_containment_witness :
    ([['o', 'u', 't']] : List (List Char)) <+: [['o', 'u', 't'], ['x']] ∨
      [['o', 'u', 't'], ['x']] <+: ([['o', 'u', 't']] : List (List Char)) := by
  exact circular_check_rejects_only_containment.1
    [['o', 'u', 't']] [['o', 'u', 't'], ['x']] (by decide) (by decide) (by decide)

/-- The root as input directory, an output directory directly beneath it. -/
def rootCfg : CrawlConfig :=
  { inputAbs := "/", outputAbs := "/a", patterns := ["b.jpg"],
    excludePatterns := [], matcher := fun p s => p == s, errorCallback := none }

/-- A one-file tree under the root. -/
def rootTree : FSTree := .dir (.cons "b.jpg" .file .nil)

/-- C3 counterexample: with `inputRoot = "/"` and `outputRoot = "/a"` the
output root is a genuine descendant of the input root (`[] <+: [a]`), yet
`checkCircularReference` reports no error — `Clean("/") + "/" = "//"` is not
a string prefix of `"/a"` — and `Crawl` proceeds into the traversal instead
of failing with a configuration error. -/
theorem circular_guard_misses_root_counterexample :
    absPathString [] = "/" ∧
    absPathString [['a']] = "/a" ∧
    (([] : List (List Char)) <+: [['a']] ∧ ([] : List (List Char)) ≠ [['a']]) ∧
    checkCircularReference "/" "/a" = none ∧
    crawlRun rootCfg rootTree =
      .ok [{ inputPath := "/b.jpg", outputPath := "/a/b.jpg" }] := by
  exact ⟨by decide, by decide, ⟨⟨[['a']], rfl⟩, by decide⟩, by decide, rfl⟩

/-- C3 amended: for every configuration whose output root is a descendant,
equal, or an ancestor of the input root — except when the containing
directory is the filesystem root `"/"` itself, where containment goes
undetected — both `Crawl` and `Watch` return the configuration error
immediately: before the traversal (the result does not depend on the tree)
and before the watcher is created or any event consumed. -/
theorem circular_guard_rejects_containment (a b : List (List Char))
    (hwa : WfPath a) (hwb : WfPath b)
    (hcont : a = b ∨ (a <+: b ∧ a ≠ b ∧ a ≠ []) ∨ (b <+: a ∧ b ≠ a ∧ b ≠ [])) :
    ∃ e, checkCircularReference (absPathString a) (absPathString b) = some e ∧
      (∀ (cfg : CrawlConfig) (t : FSTree), cfg.inputAbs = absPathString a →
        cfg.outputAbs = absPathString b → crawlRun cfg t = .error e) ∧
      (∀ (cfg : CrawlConfig) (inputs : List WatchInput) (workerErrs : List RunError)
        (ctxD : Bool) (pick : SelectBranch), cfg.inputAbs = absPathString a →
        cfg.outputAbs = absPathString b →
        watchRun cfg inputs workerErrs ctxD pick = some (some e)) := by
  have main : ∀ e, checkCircularReference (absPathString a) (absPathString b) = some e →
      ∃ e, checkCircularReference (absPathString a) (absPathString b) = some e ∧
      (∀ (cfg : CrawlConfig) (t : FSTree), cfg.inputAbs = absPathString a →
        cfg.outputAbs = absPathString b → crawlRun cfg t = .error e) ∧
      (∀ (cfg : CrawlConfig) (inputs : List WatchInput) (workerErrs : List RunError)
        (ctxD : Bool) (pick : SelectBranch), cfg.inputAbs = absPathString a →
        cfg.outputAbs = absPathString b →
        watchRun cfg inputs workerErrs ctxD pick = some (some e)) := by
    intro e hcheck
    refine ⟨e, hcheck, ?_, ?_⟩
    · intro cfg t h1 h2
      rw [crawlRun, h1, h2, hcheck]
    · intro cfg inputs workerErrs ctxD pick h1 h2
      rw [watchRun, h1, h2, hcheck]
  rcases hcont with rfl | ⟨hpre, hne, hanil⟩ | ⟨hpre, hne, hbnil⟩
  · exact main (.circularOutputInsideInput (absPathString a) (absPathString a))
      (by simp [checkCircularReference])
  · obtain ⟨b', rfl⟩ := hpre
    have hb' : b' ≠ [] := by rintro rfl; simp at hne
    have hg : goHasPrefix (absPathString (a ++ b')) (absPathString a ++ "/") = true :=
      (goHasPrefix_absPathString a (a ++ b')).mpr ⟨charJoin b', charJoin_append a b' hanil hb'⟩
    exact main (.circularOutputInsideInput (absPathString (a ++ b')) (absPathString a))
      (by simp [checkCircularReference, hg])
  · obtain ⟨a', rfl⟩ := hpre
    have ha' : a' ≠ [] := by rintro rfl; simp at hne
    have hg1 : goHasPrefix (absPathString b) (absPathString (b ++ a') ++ "/") = false := by
      by_contra hx
      rw [Bool.not_eq_false] at hx
      obtain ⟨r, hr⟩ := (goHasPrefix_absPathString (b ++ a') b).mp hx
      obtain ⟨b'', hb'', hbne⟩ := charJoin_extension (b ++ a') b r hwa hwb hr
      have hlen := congrArg List.length hb''
      simp only [List.length_append] at hlen
      have hz : a'.length = 0 := by omega
      exact ha' (List.eq_nil_of_length_eq_zero hz)
    have hg2 : (absPathString b == absPathString (b ++ a')) = false := by
      by_contra hx
      rw [Bool.not_eq_false] at hx
      have := charJoin_inj (b ++ a') b hwa hwb ((absPathString_eq (b ++ a') b).mp hx)
      exact hne this.symm
    have hg3 : goHasPrefix (absPathString (b ++ a')) (absPathString b ++ "/") = true :=
      (goHasPrefix_absPathString b (b ++ a')).mpr ⟨charJoin a', charJoin_append b a' hbnil ha'⟩
    exact main (.circularInputInsideOutput (absPathString (b ++ a')) (absPathString b))
      (by simp [checkCircularReference, hg1, hg2, hg3])

theorem circular_guard_rejects_containment_witness :
    ∃ e, checkCircularReference (absPathString [['i', 'n']])
      (absPathString [['i', 'n'], ['s']]) = some e ∧
      crawlRun { inputAbs := absPathString [['i', 'n']],
                 outputAbs := absPathString [['i', 'n'], ['s']],
                 patterns := ["x"], excludePatterns := [],
                 matcher := fun p s => p == s, errorCallback := none } exTree = .error e := by
  obtain ⟨e, he, hc, -⟩ := circular_guard_rejects_containment
    [['i', 'n']] [['i', 'n'], ['s']] (by decide) (by decide)
    (Or.inr (Or.inl ⟨⟨[['s']], rfl⟩, by decide, by decide⟩))
  exact ⟨e, he, hc _ exTree rfl rfl⟩

/-- A watch configuration with no Error Callback and a passing guard. -/
def watchCfg : CrawlConfig :=
  { inputAbs := "/in", outputAbs := "/out", patterns := ["**"],
    excludePatterns := [], matcher := fun _ _ => true, errorCallback := none }

/-- C7 counterexample: `Watch` can return `nil` without cancellation.  A
watcher error with no Error Callback makes the event handler send the error
to the capacity-1 channel, close the task channel, and exit; the workers
then drain out and `done` closes, so the coordinator's `select` has both the
error branch and the completion branch ready — and picking the completion
branch (a possible execution of Go's random `select`) returns `nil` even
though a fatal error was latched and no cancellation ever fired. -/
theorem watch_nil_return_counterexample :
    WatchInput.ctxCancel ∉ ([.watcherErr "overflow"] : List WatchInput) ∧
    (handlerRun watchCfg [.watcherErr "overflow"]).errSent =
      some (.watcherError "overflow") ∧
    watchRun watchCfg [.watcherErr "overflow"] [] false .allDone = some none := by
  refine ⟨?_, rfl, rfl⟩
  intro h
  simp at h

/-- C7 amended: the Watch event handler stays blocked — and with it the
whole `Watch` call, whose `select` then has no ready branch — until
cancellation, a fatal error, or closure of the watcher's channels; while
blocked it has sent no error and `Watch` cannot return at all (in
particular not `nil`).  However, once the handler has exited (which happens
only by cancellation, channel closure, or after latching an error), the
completion branch becomes ready and a `nil` return is possible, so `Watch`
is not guaranteed to return a non-nil error. -/
theorem watch_blocks_until_cancel_or_error (cfg : CrawlConfig) (inputs : List WatchInput) :
    ((handlerRun cfg inputs).exited = false → (handlerRun cfg inputs).errSent = none) ∧
    (checkCircularReference cfg.inputAbs cfg.outputAbs = none →
      (handlerRun cfg inputs).exited = false →
      ∀ pick, watchRun cfg inputs [] false pick = none) ∧
    ((handlerRun cfg inputs).exited = true →
      WatchInput.ctxCancel ∈ inputs ∨ WatchInput.eventsClosed ∈ inputs ∨
      WatchInput.errorsClosed ∈ inputs ∨ (handlerRun cfg inputs).errSent ≠ none) ∧
    (∀ workerErrs ctxD pick, watchRun cfg inputs workerErrs ctxD pick = some none →
      (handlerRun cfg inputs).exited = true) := by
  have key : ∀ l : List WatchInput,
      ((handlerRun cfg l).exited = false → (handlerRun cfg l).errSent = none) ∧
      ((handlerRun cfg l).exited = true →
        WatchInput.ctxCancel ∈ l ∨ WatchInput.eventsClosed ∈ l ∨
        WatchInput.errorsClosed ∈ l ∨ (handlerRun cfg l).errSent ≠ none) := by
    intro l
    induction l with
    | nil => exact ⟨fun _ => rfl, fun h => by simp [handlerRun] at h⟩
    | cons i rest ih =>
      cases i with
      | ctxCancel => exact ⟨by simp [handlerRun], fun _ => Or.inl (List.mem_cons_self _ _)⟩
      | eventsClosed =>
        exact ⟨by simp [handlerRun], fun _ => Or.inr (Or.inl (List.mem_cons_self _ _))⟩
      | errorsClosed =>
        exact ⟨by simp [handlerRun], fun _ => Or.inr (Or.inr (Or.inl (List.mem_cons_self _ _)))⟩
      | fsEvent ev =>
        rcases hp : processWatchEvent cfg ev with _ | e
        · have hstep : handlerRun cfg (.fsEvent ev :: rest) = handlerRun cfg rest := by
            simp [handlerRun, hp]
          rw [hstep]
          refine ⟨ih.1, fun h => ?_⟩
          rcases ih.2 h with h' | h' | h' | h'
          · exact Or.inl (List.mem_cons_of_mem _ h')
          · exact Or.inr (Or.inl (List.mem_cons_of_mem _ h'))
          · exact Or.inr (Or.inr (Or.inl (List.mem_cons_of_mem _ h')))
          · exact Or.inr (Or.inr (Or.inr h'))
        · have hstep : handlerRun cfg (.fsEvent ev :: rest) = ⟨some e, true⟩ := by
            simp [handlerRun, hp]
          rw [hstep]
          exact ⟨by simp, fun _ => Or.inr (Or.inr (Or.inr (by simp)))⟩
      | watcherErr e =>
        rcases hcb : cfg.errorCallback with _ | f
        · have hstep : handlerRun cfg (.watcherErr e :: rest) =
              ⟨some (.watcherError e), true⟩ := by
            simp [handlerRun, hcb]
          rw [hstep]
          exact ⟨by simp, fun _ => Or.inr (Or.inr (Or.inr (by simp)))⟩
        · rcases hf : f "watcher" e with ⟨b, _ | r⟩
          · cases b with
            | false =>
              have hstep : handlerRun cfg (.watcherErr e :: rest) = handlerRun cfg rest := by
                simp [handlerRun, hcb, hf]
              rw [hstep]
              refine ⟨ih.1, fun h => ?_⟩
              rcases ih.2 h with h' | h' | h' | h'
              · exact Or.inl (List.mem_cons_of_mem _ h')
              · exact Or.inr (Or.inl (List.mem_cons_of_mem _ h'))
              · exact Or.inr (Or.inr (Or.inl (List.mem_cons_of_mem _ h')))
              · exact Or.inr (Or.inr (Or.inr h'))
            | true =>
              have hstep : handlerRun cfg (.watcherErr e :: rest) =
                  ⟨some (.stoppedByWatcherError e), true⟩ := by
                simp [handlerRun, hcb, hf]
              rw [hstep]
              exact ⟨by simp, fun _ => Or.inr (Or.inr (Or.inr (by simp)))⟩
          · have hstep : handlerRun cfg (.watcherErr e :: rest) =
                ⟨some (.watchErrorCallbackFailed r), true⟩ := by
              simp [handlerRun, hcb, hf]
            rw [hstep]
            exact ⟨by simp, fun _ => Or.inr (Or.inr (Or.inr (by simp)))⟩
  refine ⟨(key inputs).1, ?_, (key inputs).2, ?_⟩
  · intro hg hex pick
    rw [watchRun, hg]
    have hnone : (handlerRun cfg inputs).errSent = none := (key inputs).1 hex
    rw [if_neg ?_]
    rw [Bool.not_eq_true]
    cases pick <;> simp [branchReady, hnone, hex]
  · intro workerErrs ctxD pick h
    rw [watchRun] at h
    rcases hg : checkCircularReference cfg.inputAbs cfg.outputAbs with _ | e
    · rw [hg] at h
      dsimp only at h
      by_cases hb : branchReady
          ⟨ctxD, (handlerRun cfg inputs).errSent.toList ++ workerErrs,
            (handlerRun cfg inputs).exited⟩ pick = true
      · rw [if_pos hb] at h
        injection h with h
        cases pick with
        | ctxDone => exact absurd h (by simp [coordinatorResult])
        | errRecv =>
          rw [coordinatorResult] at h
          rw [List.head?_eq_none_iff] at h
          rw [branchReady, h] at hb
          simp at hb
        | allDone => simpa [branchReady] using hb
      · rw [if_neg hb] at h
        exact absurd h (by simp)
    · rw [hg] at h
      dsimp only at h
      injection h with h
      exact absurd h (by simp)

theorem watch_blocks_until_cancel_or_error_witness :
    ∀ pick, watchRun watchCfg [] [] false pick = none := by
  exact (watch_blocks_until_cancel_or_error watchCfg []).2.1 rfl rfl
